import Mathlib

/-!
Shallow embedding of the downmixer core (downmixer.c): the numerically
controlled oscillator (NCO), the frequency control word conversion, the I/Q
multiplier and the automatic gain shifter.  Machine integers are modeled as
Nat / Int with explicit reduction modulo 2^32 or 2^16 exactly where the C
types wrap or truncate.
-/

/-- SINETABSIZE from downmixer.c: number of sine table entries. -/
def SINETABSIZE : Nat := 65536

/-- Modulus of uint32_t arithmetic: 2^32. -/
def MOD32 : Nat := 4294967296

/-- Conversion of a C int value to short as gcc implements it: reduce modulo
2^16 into the range [-32768, 32767]. -/
def toShort (x : Int) : Int := (x + 32768) % 65536 - 32768

/-- Wrap of a C signed 32-bit int (twos complement) into [-2^31, 2^31). -/
def wrap32 (x : Int) : Int := (x + 2147483648) % 4294967296 - 2147483648

/-- Arithmetic right shift of a C int, as gcc implements x >> n on signed
operands: floor division by 2^n. -/
def asr (x : Int) (n : Nat) : Int := Int.fdiv x (2 ^ n)

/-- The global state of downmixer.c: samplerate, the sine table, the per client
uint32_t arrays fcw and accu, and the shared gain shift exponent sht.
MAX_CLIENTS is defined in a header that is not among the given sources, so the
arrays are modeled as total maps over client indices; a valid channel is any
index.  The CAT handoff globals (trx_frequency, ser_command) belong to modules
outside this core and are not modeled. -/
structure DMState where
  samplerate : Nat
  sinetable : Nat → Int
  fcw : Nat → Nat
  accu : Nat → Nat
  sht : Nat

/-- C static initialization of the globals of downmixer.c: the arrays are
zeroed, samplerate is 0 until init runs, and the file scope initializer sets
sht to 10. -/
def startState : DMState :=
  { samplerate := 0
    sinetable := fun _ => 0
    fcw := fun _ => 0
    accu := fun _ => 0
    sht := 10 }

/-- The frequency control word computed by downmixer_setFrequency, namely
(uint32_t)((double)fr * p232 / (double)samplerate) with p232 = 2^32.  The
double quotient is modeled by exact integer arithmetic; the conversion of the
double to uint32_t truncates toward zero, and an out of range or negative
value wraps modulo 2^32 (the x86/gcc behavior of that conversion). -/
def fcwOf (samplerate : Nat) (fr : Int) : Nat :=
  if 0 ≤ fr then (fr.toNat * MOD32 / samplerate) % MOD32
  else (MOD32 - ((-fr).toNat * MOD32 / samplerate) % MOD32) % MOD32

/-- downmixer_setFrequency(fr, client_no): stores the control word for the
requested offset into fcw[client_no].  The printf and the CAT tuning handoff
(trx_frequency, ser_command) are effects on collaborators outside the modeled
state. -/
def downmixer_setFrequency (fr : Int) (client_no : Nat) (st : DMState) : DMState :=
  { st with fcw := fun c => if c = client_no then fcwOf st.samplerate fr else st.fcw c }

/-- downmixer_init(): sets samplerate = NB_SAMPLE_RATE (a constant from a
header not among the given sources, passed here as sr), fills the sine table
with sinetable[i] = (short)(sin(v) * 32768) where v steps by 2*pi/65536 in
double precision (the computed table is passed as tbl because the stored
values depend on IEEE 754 double rounding; tbl 0 = 0 holds exactly since
sin(0) = 0), then gives every client the 10 kHz default control word and a
zero accumulator. -/
def downmixer_init (sr : Nat) (tbl : Nat → Int) (st : DMState) : DMState :=
  { st with
    samplerate := sr
    sinetable := tbl
    fcw := fun _ => fcwOf sr 10000
    accu := fun _ => 0 }

/-- increment_NCO(client_no): adds the control word into the 32-bit
accumulator (uint32_t wraps modulo 2^32; the masking with 0xffffffff in the
source is a redundant re-reduction) and returns sinetable[accu >> 16]. -/
def increment_NCO (client_no : Nat) (st : DMState) : DMState × Int :=
  let a := (st.accu client_no + st.fcw client_no) % MOD32
  ({ st with accu := fun c => if c = client_no then a else st.accu c },
   st.sinetable (a >>> 16))

/-- downmixer_process(pisample, pqsample, client): obtains the LO from the
NCO, forms the 32-bit products ix and qx, writes back (short)(ix >> sht) and
(short)(qx >> sht) through the sample pointers (modeled as the returned pair),
and increments the shared shift when (ix >> sht) > 32767 and sht < 15. -/
def downmixer_process (isample qsample : Int) (client : Nat) (st : DMState) :
    DMState × Int × Int :=
  let p := increment_NCO client st
  let lo := p.2
  let ix := wrap32 (isample * lo)
  let qx := wrap32 (qsample * lo)
  let iOut := toShort (asr ix p.1.sht)
  let qOut := toShort (asr qx p.1.sht)
  let st2 :=
    if 32767 < asr ix p.1.sht ∧ p.1.sht < 15 then
      { p.1 with sht := p.1.sht + 1 }
    else p.1
  (st2, iOut, qOut)

/-- Run a sequence of downmixer_process calls, one input pair and client per
element, returning the final state. -/
def runSeq (l : List (Int × Int × Nat)) (st : DMState) : DMState :=
  l.foldl (fun s t => (downmixer_process t.1 t.2.1 t.2.2 s).1) st

/-- Iterate downmixer_process n times on the same input pair and client,
returning the final state. -/
def iterate_process (i q : Int) (c : Nat) : Nat → DMState → DMState
  | 0, st => st
  | n + 1, st => iterate_process i q c n (downmixer_process i q c st).1

/-- Every sine table entry is stored in a C short array, hence lies in the
signed 16-bit range. -/
def sinetableWF (st : DMState) : Prop :=
  ∀ i, -32768 ≤ st.sinetable i ∧ st.sinetable i ≤ 32767

/-- The control word conversion as the spec words state it: the quotient
offsetHz * 2^32 / sampleRate rounded to the nearest integer (half rounds up),
for a nonnegative offset. -/
def setFrequency_specRound (samplerate frN : Nat) : Nat :=
  (2 * frN * MOD32 + samplerate) / (2 * samplerate)

/-- The ideal unwrapped control word: the exact quotient fr * 2^32 /
samplerate truncated toward zero, as the double to integer conversion
truncates before the uint32_t wrap. -/
def idealFCW (samplerate : Nat) (fr : Int) : Int :=
  Int.tdiv (fr * (MOD32 : Int)) (samplerate : Int)

/-- A concrete table for the zero offset scenario: entry 0 is 0 exactly as the
C computation stores it (sin(0) * 32768 is exactly 0); the remaining entries
are irrelevant there because the phase never advances. -/
def exTable : Nat → Int := fun i => if i = 0 then 0 else 32767

/-- A concrete full scale table used to exercise the gain shifter. -/
def fullTable : Nat → Int := fun _ => 32767

/-- A concrete state for witnesses and counterexamples: full scale table, all
control words and accumulators zero, shift at its initial value 10. -/
def stW : DMState :=
  { samplerate := 2400000
    sinetable := fullTable
    fcw := fun _ => 0
    accu := fun _ => 0
    sht := 10 }

-- sanity: the sine table of stW is well formed
lemma stW_wf : sinetableWF stW := by
  intro i
  constructor <;> simp [stW, fullTable]

-- wrap32 is the identity on values already within the signed 32-bit range
lemma wrap32_eq_self (x : Int) (h1 : -2147483648 ≤ x) (h2 : x < 2147483648) :
    wrap32 x = x := by
  simp only [wrap32]
  omega

-- a product of two short range values has magnitude at most 2^30
lemma short_mul_bound (i lo : Int) (hi1 : -32768 ≤ i) (hi2 : i ≤ 32767)
    (hl1 : -32768 ≤ lo) (hl2 : lo ≤ 32767) : |i * lo| ≤ 1073741824 := by
  have h1 : |i| ≤ 32768 := by rw [abs_le]; omega
  have h2 : |lo| ≤ 32768 := by rw [abs_le]; omega
  calc |i * lo| = |i| * |lo| := abs_mul i lo
    _ ≤ 32768 * 32768 :=
      mul_le_mul h1 h2 (abs_nonneg lo) (by norm_num)
    _ = 1073741824 := by norm_num

-- the state returned by increment_NCO changes only the accumulator
lemma increment_NCO_state (c : Nat) (st : DMState) :
    (increment_NCO c st).1 =
      { st with accu := fun c2 =>
          if c2 = c then (st.accu c + st.fcw c) % MOD32 else st.accu c2 } := rfl

-- the LO value returned by increment_NCO
lemma increment_NCO_val (c : Nat) (st : DMState) :
    (increment_NCO c st).2 =
      st.sinetable (((st.accu c + st.fcw c) % MOD32) >>> 16) := rfl

-- the state component of downmixer_process, written with the if on sht
lemma downmixer_process_state (i q : Int) (c : Nat) (st : DMState) :
    (downmixer_process i q c st).1 =
      if 32767 < asr (wrap32 (i * (increment_NCO c st).2)) st.sht ∧ st.sht < 15 then
        { (increment_NCO c st).1 with sht := st.sht + 1 }
      else (increment_NCO c st).1 := rfl

-- the output pair of downmixer_process
lemma downmixer_process_out (i q : Int) (c : Nat) (st : DMState) :
    (downmixer_process i q c st).2 =
      (toShort (asr (wrap32 (i * (increment_NCO c st).2)) st.sht),
       toShort (asr (wrap32 (q * (increment_NCO c st).2)) st.sht)) := rfl

/-- Claim C5: one call to increment_NCO sets the accumulator of the channel to
(old accu + fcw) mod 2^32, returns the sine table entry selected by the high
16 bits of the new phase, and leaves every other channel accumulator and all
control words unchanged. -/
theorem C5_increment_NCO_step (st : DMState) (c : Nat) :
    (increment_NCO c st).1.accu c = (st.accu c + st.fcw c) % MOD32 ∧
    (increment_NCO c st).2 =
      st.sinetable (((st.accu c + st.fcw c) % MOD32) >>> 16) ∧
    (∀ c2, c2 ≠ c → (increment_NCO c st).1.accu c2 = st.accu c2) ∧
    (increment_NCO c st).1.fcw = st.fcw := by
  refine ⟨by simp [increment_NCO], rfl, ?_, rfl⟩
  intro c2 h
  simp [increment_NCO, h]

/-- Claim C5 witness: the step theorem applied at a concrete state and
channel; channel 1 keeps its accumulator when channel 0 is stepped. -/
theorem C5_increment_NCO_step_witness :
    (increment_NCO 0 stW).1.accu 1 = stW.accu 1 :=
  (C5_increment_NCO_step stW 0).2.2.1 1 (by decide)

/-- Claim C2 counterexample: with a full scale LO (32767), inputs i = 0 and
q = 32767 make the rescaled Q product exceed 32767 while sht = 10 < 15, yet
the shift stays 10: the code checks only the I product, and only its positive
excursion, never the Q product or a negative overflow. -/
theorem C2_counterexample :
    (downmixer_process 0 32767 0 stW).1.sht = 10 ∧
    32767 < asr (wrap32 (32767 * (increment_NCO 0 stW).2)) stW.sht ∧
    stW.sht < 15 := by decide

/-- Claim C2 amended: on each downmixer_process call the shared shift is
incremented by exactly 1 iff the rescaled I product (ix >> sht) exceeds 32767
— the positive excursion of the I branch only; Q and negative overflows never
trigger — and sht < 15; otherwise the shift is unchanged. -/
theorem C2_shift_trigger (st : DMState) (i q : Int) (c : Nat) :
    ((downmixer_process i q c st).1.sht = st.sht + 1 ↔
      (32767 < asr (wrap32 (i * (increment_NCO c st).2)) st.sht ∧ st.sht < 15)) ∧
    (¬(32767 < asr (wrap32 (i * (increment_NCO c st).2)) st.sht ∧ st.sht < 15) →
      (downmixer_process i q c st).1.sht = st.sht) := by
  rw [downmixer_process_state i q c st]
  by_cases hc :
      32767 < asr (wrap32 (i * (increment_NCO c st).2)) st.sht ∧ st.sht < 15
  · rw [if_pos hc]
    exact ⟨⟨fun _ => hc, fun _ => rfl⟩, fun h => absurd hc h⟩
  · rw [if_neg hc]
    have hsht : (increment_NCO c st).1.sht = st.sht := rfl
    refine ⟨⟨fun h => absurd ?_ hc, fun h => absurd h hc⟩, fun _ => hsht⟩
    omega

/-- Claim C2 amended witness: a call whose I product stays small leaves the
shift unchanged. -/
theorem C2_shift_trigger_witness :
    (downmixer_process 0 (-5) 0 stW).1.sht = stW.sht :=
  (C2_shift_trigger stW 0 (-5) 0).2 (by decide)

-- one processing step either keeps the shift or increments it below 15
lemma process_sht_cases (i q : Int) (c : Nat) (st : DMState) :
    (downmixer_process i q c st).1.sht = st.sht ∨
    ((downmixer_process i q c st).1.sht = st.sht + 1 ∧ st.sht < 15) := by
  rw [downmixer_process_state i q c st]
  by_cases hc :
      32767 < asr (wrap32 (i * (increment_NCO c st).2)) st.sht ∧ st.sht < 15
  · rw [if_pos hc]
    exact Or.inr ⟨rfl, hc.2⟩
  · rw [if_neg hc]
    exact Or.inl rfl

/-- Claim C6: over any sequence of downmixer_process calls (any channels, any
inputs) the shared gain shift exponent is non-decreasing, stays at most 15
whenever it starts at most 15, and once it is 15 it never changes again.
Because the sequence and start state are universally quantified, this bounds
the shift at every intermediate point of any run as well. -/
theorem C6_sht_monotone_saturating (l : List (Int × Int × Nat)) (st : DMState) :
    st.sht ≤ (runSeq l st).sht ∧
    (st.sht ≤ 15 → (runSeq l st).sht ≤ 15) ∧
    (st.sht = 15 → (runSeq l st).sht = 15) := by
  induction l generalizing st with
  | nil => exact ⟨le_refl _, fun h => h, fun h => h⟩
  | cons t rest ih =>
    have hstep := process_sht_cases t.1 t.2.1 t.2.2 st
    have hrun : runSeq (t :: rest) st =
        runSeq rest (downmixer_process t.1 t.2.1 t.2.2 st).1 := rfl
    rw [hrun]
    rcases ih (downmixer_process t.1 t.2.1 t.2.2 st).1 with ⟨h1, h2, h3⟩
    rcases hstep with h | ⟨h, hlt⟩
    · exact ⟨by omega, fun hle => h2 (by omega), fun he => h3 (by omega)⟩
    · exact ⟨by omega, fun hle => h2 (by omega), fun he => by omega⟩

/-- Claim C6 witness: the monotonicity and saturation theorem applied to a one
element run from a state whose shift is already 15: the shift stays exactly
15. -/
theorem C6_sht_monotone_saturating_witness :
    ({ stW with sht := 15 } : DMState).sht ≤
      (runSeq [(32767, 32767, 0)] { stW with sht := 15 }).sht ∧
    (runSeq [(32767, 32767, 0)] { stW with sht := 15 }).sht = 15 :=
  ⟨(C6_sht_monotone_saturating [(32767, 32767, 0)] { stW with sht := 15 }).1,
   (C6_sht_monotone_saturating [(32767, 32767, 0)] { stW with sht := 15 }).2.2 rfl⟩

-- with a short valued table, a short range sample times the LO fits in int32
lemma short_mul_lo_fits (st : DMState) (c : Nat) (x : Int)
    (hwf : sinetableWF st) (h1 : -32768 ≤ x) (h2 : x ≤ 32767) :
    wrap32 (x * (increment_NCO c st).2) = x * (increment_NCO c st).2 := by
  have hlo := hwf (((st.accu c + st.fcw c) % MOD32) >>> 16)
  rw [increment_NCO_val] at *
  have hb := short_mul_bound x (st.sinetable (((st.accu c + st.fcw c) % MOD32) >>> 16))
    h1 h2 hlo.1 hlo.2
  rw [abs_le] at hb
  exact wrap32_eq_self _ (by omega) (by omega)

/-- Claim C8: for every channel, every short range input pair and every short
valued table, downmixer_process outputs exactly (short)((i * lo) >> sht) and
(short)((q * lo) >> sht), where lo is the value increment_NCO returns and sht
is the current shared shift; the 32-bit intermediate products equal the true
integer products, so the multiply is widening, not modular. -/
theorem C8_process_outputs (st : DMState) (c : Nat) (i q : Int)
    (hwf : sinetableWF st) (hi1 : -32768 ≤ i) (hi2 : i ≤ 32767)
    (hq1 : -32768 ≤ q) (hq2 : q ≤ 32767) :
    (downmixer_process i q c st).2.1 =
      toShort (asr (i * (increment_NCO c st).2) st.sht) ∧
    (downmixer_process i q c st).2.2 =
      toShort (asr (q * (increment_NCO c st).2) st.sht) := by
  have hout := downmixer_process_out i q c st
  have hwi := short_mul_lo_fits st c i hwf hi1 hi2
  have hwq := short_mul_lo_fits st c q hwf hq1 hq2
  rw [hwi, hwq] at hout
  exact ⟨congrArg Prod.fst hout, congrArg Prod.snd hout⟩

/-- Claim C8 witness: the output formula at a concrete state, channel and
input pair, with all range hypotheses discharged. -/
theorem C8_process_outputs_witness :
    (downmixer_process 1000 (-500) 0 stW).2.1 =
      toShort (asr (1000 * (increment_NCO 0 stW).2) stW.sht) ∧
    (downmixer_process 1000 (-500) 0 stW).2.2 =
      toShort (asr ((-500) * (increment_NCO 0 stW).2) stW.sht) :=
  C8_process_outputs stW 0 1000 (-500) stW_wf (by decide) (by decide)
    (by decide) (by decide)

/-- Claim C9: for every short range sample and every LO value the NCO can
return from a short valued table, the intermediate product has magnitude at
most 2^30 = 1073741824, and therefore the 32-bit intermediate holds it without
wrapping. -/
theorem C9_no_product_overflow (st : DMState) (c : Nat) (x : Int)
    (hwf : sinetableWF st) (h1 : -32768 ≤ x) (h2 : x ≤ 32767) :
    |x * (increment_NCO c st).2| ≤ 1073741824 ∧
    wrap32 (x * (increment_NCO c st).2) = x * (increment_NCO c st).2 := by
  have hlo := hwf (((st.accu c + st.fcw c) % MOD32) >>> 16)
  constructor
  · rw [increment_NCO_val]
    exact short_mul_bound x _ h1 h2 hlo.1 hlo.2
  · exact short_mul_lo_fits st c x hwf h1 h2

/-- Claim C9 witness: the product bound at a concrete state, channel and
sample. -/
theorem C9_no_product_overflow_witness :
    |(-32768 : Int) * (increment_NCO 0 stW).2| ≤ 1073741824 ∧
    wrap32 ((-32768 : Int) * (increment_NCO 0 stW).2) =
      (-32768 : Int) * (increment_NCO 0 stW).2 :=
  C9_no_product_overflow stW 0 (-32768) stW_wf (by decide) (by decide)

/-- Claim C10: downmixer_process changes only the output pair, the accumulator
of the processed channel and possibly the shared shift: every control word,
every other channel accumulator, the sine table and the sample rate are
unchanged, and the shift either stays or grows by exactly 1. -/
theorem C10_process_frame (st : DMState) (i q : Int) (c : Nat) :
    (downmixer_process i q c st).1.fcw = st.fcw ∧
    (downmixer_process i q c st).1.sinetable = st.sinetable ∧
    (downmixer_process i q c st).1.samplerate = st.samplerate ∧
    (∀ c2, c2 ≠ c → (downmixer_process i q c st).1.accu c2 = st.accu c2) ∧
    ((downmixer_process i q c st).1.sht = st.sht ∨
      (downmixer_process i q c st).1.sht = st.sht + 1) := by
  rw [downmixer_process_state i q c st]
  by_cases hc :
      32767 < asr (wrap32 (i * (increment_NCO c st).2)) st.sht ∧ st.sht < 15
  · rw [if_pos hc]
    refine ⟨rfl, rfl, rfl, ?_, Or.inr rfl⟩
    intro c2 h
    simp [increment_NCO, h]
  · rw [if_neg hc]
    refine ⟨rfl, rfl, rfl, ?_, Or.inl rfl⟩
    intro c2 h
    simp [increment_NCO, h]

/-- Claim C10 witness: the frame condition at a concrete state, channel and
input pair; channel 1 keeps its accumulator and the control words survive. -/
theorem C10_process_frame_witness :
    (downmixer_process 1000 (-500) 0 stW).1.fcw = stW.fcw ∧
    (downmixer_process 1000 (-500) 0 stW).1.accu 1 = stW.accu 1 :=
  ⟨(C10_process_frame stW 1000 (-500) 0).1,
   (C10_process_frame stW 1000 (-500) 0).2.2.2.1 1 (by decide)⟩

-- the control word stored for the tuned channel
lemma setFrequency_fcw (fr : Int) (c : Nat) (st : DMState) :
    (downmixer_setFrequency fr c st).fcw c = fcwOf st.samplerate fr := by
  simp [downmixer_setFrequency]

-- truncating division of Nat casts reduces to Nat division
lemma tdiv_ofNat (m n : Nat) : Int.tdiv (m : Int) (n : Int) = ((m / n : Nat) : Int) := rfl

/-- Claim C7: downmixer_setFrequency is total on all signed integer offsets
(no error return: the operation is a total function of the state), and the
stored control word is always a well defined value below 2^32 that is
congruent modulo 2^32 to the ideal truncated control word fr * 2^32 /
samplerate — offsets beyond the representable range wrap the oscillator to an
alias frequency. -/
theorem C7_setFrequency_total_wraps (st : DMState) (fr : Int) (c : Nat)
    (hsr : 0 < st.samplerate) :
    (downmixer_setFrequency fr c st).fcw c < MOD32 ∧
    (MOD32 : Int) ∣
      ((downmixer_setFrequency fr c st).fcw c : Int) - idealFCW st.samplerate fr := by
  rw [setFrequency_fcw]
  by_cases h : 0 ≤ fr
  · have hfr : fr * (MOD32 : Int) = ((fr.toNat * MOD32 : Nat) : Int) := by
      push_cast
      rw [Int.toNat_of_nonneg h]
    rw [idealFCW, hfr, tdiv_ofNat]
    simp only [fcwOf]
    rw [if_pos h]
    unfold MOD32
    generalize fr.toNat * 4294967296 / st.samplerate = a
    constructor
    · exact Nat.mod_lt _ (by decide)
    · omega
  · have hfr : fr * (MOD32 : Int) = -(((-fr).toNat * MOD32 : Nat) : Int) := by
      push_cast
      rw [Int.toNat_of_nonneg (by omega : (0:Int) ≤ -fr)]
      ring
    rw [idealFCW, hfr, Int.neg_tdiv, tdiv_ofNat]
    simp only [fcwOf]
    rw [if_neg h]
    unfold MOD32
    generalize (-fr).toNat * 4294967296 / st.samplerate = m
    constructor
    · exact Nat.mod_lt _ (by decide)
    · omega

/-- Claim C7 witness: a negative, hence out of range, offset of -1000 Hz at
samplerate 2400000 is accepted and yields the wrapped alias control word. -/
theorem C7_setFrequency_total_wraps_witness :
    (downmixer_setFrequency (-1000) 0 stW).fcw 0 < MOD32 ∧
    (MOD32 : Int) ∣
      ((downmixer_setFrequency (-1000) 0 stW).fcw 0 : Int) -
        idealFCW stW.samplerate (-1000) ∧
    (downmixer_setFrequency (-1000) 0 stW).fcw 0 = 4293177727 :=
  ⟨(C7_setFrequency_total_wraps stW (-1000) 0 (by decide)).1,
   (C7_setFrequency_total_wraps stW (-1000) 0 (by decide)).2,
   by decide⟩

/-- Claim C3 counterexample: at samplerate 2400000 an offset of 1 Hz has exact
quotient 2^32 / 2400000 = 1789.5697..., whose nearest integer is 1790; the
double to uint32_t conversion truncates toward zero, so the code stores 1789.
(The double quotient is within one ulp of the exact value, far from the next
integer, so exact arithmetic and the double agree on the truncation.) -/
theorem C3_counterexample :
    (downmixer_setFrequency 1 0 stW).fcw 0 = 1789 ∧
    setFrequency_specRound stW.samplerate 1 = 1790 ∧
    (downmixer_setFrequency 1 0 stW).fcw 0 ≠
      setFrequency_specRound stW.samplerate 1 := by decide

/-- Claim C3 amended: for a nonnegative offset below the sample rate the
stored control word is the exact quotient offsetHz * 2^32 / sampleRate
truncated toward zero (the floor), not rounded to nearest: it is the unique w
with w * sampleRate ≤ offsetHz * 2^32 < (w + 1) * sampleRate. -/
theorem C3_setFrequency_truncates (st : DMState) (frN : Nat) (c : Nat)
    (hsr : 0 < st.samplerate) (hlt : frN < st.samplerate) :
    (downmixer_setFrequency (frN : Int) c st).fcw c * st.samplerate ≤
      frN * MOD32 ∧
    frN * MOD32 <
      ((downmixer_setFrequency (frN : Int) c st).fcw c + 1) * st.samplerate := by
  rw [setFrequency_fcw, fcwOf, if_pos (by omega : (0:Int) ≤ (frN : Int))]
  have htn : ((frN : Int)).toNat = frN := rfl
  rw [htn]
  have hdiv : frN * MOD32 / st.samplerate < MOD32 := by
    apply Nat.div_lt_of_lt_mul
    calc frN * MOD32 < st.samplerate * MOD32 :=
          Nat.mul_lt_mul_of_lt_of_le hlt (le_refl MOD32) (by decide)
      _ = st.samplerate * MOD32 := rfl
  rw [Nat.mod_eq_of_lt hdiv]
  constructor
  · exact Nat.div_mul_le_self _ _
  · have hm := Nat.div_add_mod (frN * MOD32) st.samplerate
    have hr : (frN * MOD32) % st.samplerate < st.samplerate := Nat.mod_lt _ hsr
    have hexp : (frN * MOD32 / st.samplerate + 1) * st.samplerate =
        st.samplerate * (frN * MOD32 / st.samplerate) + st.samplerate := by ring
    omega

/-- Claim C3 amended witness: the truncation characterization at samplerate
2400000 and offset 1 Hz, where the stored word is 1789. -/
theorem C3_setFrequency_truncates_witness :
    (downmixer_setFrequency (1 : Int) 0 stW).fcw 0 * stW.samplerate ≤
      1 * MOD32 ∧
    1 * MOD32 <
      ((downmixer_setFrequency (1 : Int) 0 stW).fcw 0 + 1) * stW.samplerate :=
  C3_setFrequency_truncates stW 1 0 (by decide) (by decide)

-- processing leaves every control word unchanged
lemma process_fcw (i q : Int) (c : Nat) (st : DMState) :
    (downmixer_process i q c st).1.fcw = st.fcw := by
  rw [downmixer_process_state]
  split <;> rfl

-- processing leaves the sine table unchanged
lemma process_sinetable (i q : Int) (c : Nat) (st : DMState) :
    (downmixer_process i q c st).1.sinetable = st.sinetable := by
  rw [downmixer_process_state]
  split <;> rfl

-- processing advances the accumulator of the processed channel by its fcw
lemma process_accu_self (i q : Int) (c : Nat) (st : DMState) :
    (downmixer_process i q c st).1.accu c = (st.accu c + st.fcw c) % MOD32 := by
  rw [downmixer_process_state]
  split <;> simp [increment_NCO]

-- with zero control word and zero phase on channel 0, iteration keeps both
lemma iterate_zero_inv (i q : Int) (n : Nat) (st : DMState)
    (hf : st.fcw 0 = 0) (ha : st.accu 0 = 0) :
    (iterate_process i q 0 n st).fcw 0 = 0 ∧
    (iterate_process i q 0 n st).accu 0 = 0 ∧
    (iterate_process i q 0 n st).sinetable = st.sinetable := by
  induction n generalizing st with
  | zero => exact ⟨hf, ha, rfl⟩
  | succ n ih =>
    have h1 : (downmixer_process i q 0 st).1.fcw 0 = 0 := by
      rw [process_fcw]
      exact hf
    have h2 : (downmixer_process i q 0 st).1.accu 0 = 0 := by
      rw [process_accu_self, hf, ha]
      rfl
    have h3 := process_sinetable i q 0 st
    have hrec := ih (downmixer_process i q 0 st).1 h1 h2
    simp only [iterate_process]
    exact ⟨hrec.1, hrec.2.1, by rw [hrec.2.2, h3]⟩

-- a state with zero control word, zero phase and zero table entry 0 yields a
-- zero LO and a zero output pair
lemma process_zero_lo (i q : Int) (st : DMState)
    (hf : st.fcw 0 = 0) (ha : st.accu 0 = 0) (h0 : st.sinetable 0 = 0) :
    (downmixer_process i q 0 st).2 = (0, 0) ∧ (increment_NCO 0 st).2 = 0 := by
  have hlo : (increment_NCO 0 st).2 = 0 := by
    rw [increment_NCO_val, hf, ha]
    exact h0
  constructor
  · rw [downmixer_process_out, hlo]
    norm_num [wrap32, asr, toShort, Int.zero_fdiv]
  · exact hlo

/-- Claim C1 amended: after downmixer_init and setFrequency(0, 0) the control
word of channel 0 is 0 and its accumulator stays 0, so on every one of the
repeated downmixer_process calls the LO is the constant sinetable[0] = 0 (the
sine at phase zero, not a near-unity value), and the output pair is (0, 0)
regardless of the input (1000, -500): constant with no frequency content, but
zero rather than the input scaled by the initial shift. -/
theorem C1_zero_offset_zero_output (sr : Nat) (tbl : Nat → Int)
    (h0 : tbl 0 = 0) (n : Nat) :
    (downmixer_process 1000 (-500) 0
        (iterate_process 1000 (-500) 0 n
          (downmixer_setFrequency 0 0 (downmixer_init sr tbl startState)))).2 =
      (0, 0) ∧
    (increment_NCO 0
        (iterate_process 1000 (-500) 0 n
          (downmixer_setFrequency 0 0 (downmixer_init sr tbl startState)))).2 =
      0 := by
  have hf0 : (downmixer_setFrequency 0 0 (downmixer_init sr tbl startState)).fcw 0 = 0 := by
    simp [downmixer_setFrequency, downmixer_init, startState, fcwOf]
  have ha0 : (downmixer_setFrequency 0 0 (downmixer_init sr tbl startState)).accu 0 = 0 := by
    simp [downmixer_setFrequency, downmixer_init, startState]
  have hinv := iterate_zero_inv 1000 (-500) n
    (downmixer_setFrequency 0 0 (downmixer_init sr tbl startState)) hf0 ha0
  apply process_zero_lo
  · exact hinv.1
  · exact hinv.2.1
  · rw [hinv.2.2]
    exact h0

/-- Claim C1 amended witness: three repetitions with a concrete table whose
entry 0 is 0. -/
theorem C1_zero_offset_zero_output_witness :
    (downmixer_process 1000 (-500) 0
        (iterate_process 1000 (-500) 0 3
          (downmixer_setFrequency 0 0
            (downmixer_init 2400000 (fun _ => 0) startState)))).2 = (0, 0) :=
  (C1_zero_offset_zero_output 2400000 (fun _ => 0) rfl 3).1

/-- Claim C1 counterexample: in the concretely initialized zero offset state
(table entry 0 equal to 0, exactly as the C fill stores sin(0) * 32768 = 0)
the first processed output of (1000, -500) is (0, 0) and the LO is 0, while a
constant near-unity LO of 32767 with the initial shift 10 would have produced
the scaled output 31999 — the LO is not near-unity and the output does not
track the input proportionally. -/
theorem C1_counterexample :
    (downmixer_process 1000 (-500) 0
        (downmixer_setFrequency 0 0 (downmixer_init 2400000 exTable startState))).2 =
      (0, 0) ∧
    (increment_NCO 0
        (downmixer_setFrequency 0 0 (downmixer_init 2400000 exTable startState))).2 =
      0 ∧
    toShort (asr (1000 * 32767) 10) = 31999 ∧
    (downmixer_process 1000 (-500) 0
        (downmixer_setFrequency 0 0 (downmixer_init 2400000 exTable startState))).2.1 ≠
      toShort (asr (1000 * 32767) 10) := by decide
